import Mathlib

/-!
Verification development for the go-xrr-gamma repository.

The Go sources are shallowly embedded as follows:
* `Channel`, `XferFn`, `XferFn.Chain`, `XferFn.Mul` model the transfer-function
  primitives of package `gamma` (gamma.go), with `float64` modelled by `ℝ`.
* `LookupTable` and its operations `Equals` and `XferFn` model the calibration
  snapshot of package `gamma`; samples (`C.ushort`) are modelled by `ℕ`, exact
  `float64` arithmetic by `ℚ`, and a Go index-out-of-range panic by `Option`.
* The `alert` package's state machine (`alert.Xft`) is modelled by an explicit
  state record `AlertState` and the step function `xftStep`; durations
  (`time.Duration`) are `ℤ` nanoseconds and strengths are `ℝ`.
* The `animate` package's loop (`func animate`) is modelled by `iterBody`,
  `runIters` and `animateRun` over a per-iteration oracle environment
  `IterEnv` describing the device reads, the driver-function outputs and the
  wake reason of each iteration.
-/

/-- Type `Channel` models the Go type `gamma.Channel` (Red, Green, Blue). -/
inductive Channel
  | Red
  | Green
  | Blue
deriving DecidableEq, Repr

/-- Type `XferFn` models `gamma.XferFn`: a per-channel response curve, with
`float64` modelled by `ℝ`. -/
def XferFn : Type := Channel → ℝ → ℝ

/-- Combinator `XferFn.Chain` models `gamma.XferFn.Chain`: `a.Chain(b)(ch, in) = b(ch, a(ch, in))`. -/
def XferFn.Chain (a b : XferFn) : XferFn :=
  fun ch x => b ch (a ch x)

/-- Combinator `XferFn.Mul` models `gamma.XferFn.Mul`: `a.Mul(b)(ch, in) = a(ch, in) * b(ch, in)`. -/
def XferFn.Mul (a b : XferFn) : XferFn :=
  fun ch x => a ch x * b ch x

/-- Claim C10: for all Transfer Functions `f` and `g`, every channel `ch` and every
input `x`, `chain(f, g)(ch, x) = g(ch, f(ch, x))` and
`multiply(f, g)(ch, x) = f(ch, x) * g(ch, x)`. -/
theorem chain_mul_pointwise (f g : XferFn) (ch : Channel) (x : ℝ) :
    (f.Chain g) ch x = g ch (f ch x) ∧ (f.Mul g) ch x = f ch x * g ch x :=
  ⟨rfl, rfl⟩

/-- Type `LookupTable` models `gamma.LookupTable`: per-channel, per-CRTC sample arrays.
The Go field `t [3][][]C.ushort` is modelled by one list of sample lists per
channel; a `C.ushort` sample is modelled by `ℕ`. -/
structure LookupTable where
  red : List (List ℕ)
  green : List (List ℕ)
  blue : List (List ℕ)
deriving DecidableEq, Repr

/-- Selects the per-channel slice `lt.t[ch]` of a `LookupTable`. -/
def LookupTable.chan (lt : LookupTable) : Channel → List (List ℕ)
  | Channel.Red => lt.red
  | Channel.Green => lt.green
  | Channel.Blue => lt.blue

/-- Models the innermost loop of `gamma.LookupTable.Equals`: length check plus
pointwise sample comparison of two per-CRTC sample arrays. -/
def lutValuesEqual : List ℕ → List ℕ → Bool
  | [], [] => true
  | a :: as, b :: bs => a == b && lutValuesEqual as bs
  | _, _ => false

/-- Models the middle loop of `gamma.LookupTable.Equals`: length check plus
pointwise comparison of the per-CRTC arrays of one channel. -/
def crtcsEqual : List (List ℕ) → List (List ℕ) → Bool
  | [], [] => true
  | a :: as, b :: bs => lutValuesEqual a b && crtcsEqual as bs
  | _, _ => false

/-- Models `gamma.LookupTable.Equals`: true iff values and topology agree on
all three channels. -/
def LookupTable.Equals (lt o : LookupTable) : Bool :=
  crtcsEqual lt.red o.red && crtcsEqual lt.green o.green && crtcsEqual lt.blue o.blue

theorem lutValuesEqual_iff : ∀ a b : List ℕ, lutValuesEqual a b = true ↔ a = b := by
  intro a
  induction a with
  | nil => intro b; cases b <;> simp [lutValuesEqual]
  | cons x xs ih =>
    intro b
    cases b with
    | nil => simp [lutValuesEqual]
    | cons y ys => simp [lutValuesEqual, ih]

theorem crtcsEqual_iff : ∀ a b : List (List ℕ), crtcsEqual a b = true ↔ a = b := by
  intro a
  induction a with
  | nil => intro b; cases b <;> simp [crtcsEqual]
  | cons x xs ih =>
    intro b
    cases b with
    | nil => simp [crtcsEqual]
    | cons y ys => simp [crtcsEqual, lutValuesEqual_iff, ih]

theorem lookupTable_equals_iff (a b : LookupTable) : a.Equals b = true ↔ a = b := by
  cases a; cases b
  simp [LookupTable.Equals, crtcsEqual_iff, LookupTable.mk.injEq, and_assoc]

/-- Replaces sample `j` of controller `i` of channel `ch` with value `v`
(out-of-range indices leave the table unchanged, per `List.set`). -/
def LookupTable.setSample (lt : LookupTable) (ch : Channel) (i j v : ℕ) : LookupTable :=
  match ch with
  | Channel.Red => { lt with red := lt.red.set i ((lt.red.getD i []).set j v) }
  | Channel.Green => { lt with green := lt.green.set i ((lt.green.getD i []).set j v) }
  | Channel.Blue => { lt with blue := lt.blue.set i ((lt.blue.getD i []).set j v) }

theorem list_set_ne_of_get {α : Type} [DecidableEq α] (l : List α) (j : ℕ) (s v : α)
    (hj : l.get? j = some s) (hne : v ≠ s) : l.set j v ≠ l := by
  intro h
  have hlen : j < l.length := by
    rcases List.get?_eq_some.mp hj with ⟨hlt, _⟩
    exact hlt
  have : (l.set j v).get? j = some v := by
    rw [List.get?_eq_getElem?] at *
    simp [List.getElem?_set_self, hlen]
  rw [h, hj] at this
  exact hne (Option.some.inj this).symm

theorem chan_set_ne (lt : LookupTable) (ch : Channel) (i j v : ℕ) (lut : List ℕ) (s : ℕ)
    (hi : (lt.chan ch).get? i = some lut) (hj : lut.get? j = some s) (hne : v ≠ s) :
    lt.setSample ch i j v ≠ lt := by
  have hilen : i < (lt.chan ch).length := by
    rcases List.get?_eq_some.mp hi with ⟨hlt, _⟩
    exact hlt
  have hgetD : (lt.chan ch).getD i [] = lut := by
    simp [List.getD, List.get?_eq_getElem?] at hi ⊢
    simp [hi]
  have hlutne : lut.set j v ≠ lut := list_set_ne_of_get lut j s v hj hne
  have hsetne : (lt.chan ch).set i (lut.set j v) ≠ lt.chan ch := by
    intro h
    have : ((lt.chan ch).set i (lut.set j v)).get? i = some (lut.set j v) := by
      rw [List.get?_eq_getElem?]
      simp [List.getElem?_set_self, hilen]
    rw [h, hi] at this
    exact hlutne (Option.some.inj this).symm
  intro h
  apply hsetne
  have h' := congrArg (fun x => LookupTable.chan x ch) h
  simp only at h'
  cases ch <;> simp only [LookupTable.setSample, LookupTable.chan] at h' hgetD ⊢ <;>
    rw [← hgetD] <;> exact h'

/-- Claim C9: snapshot equality returns true iff the two snapshots have identical
topology and every channel/controller/sample value matches exactly (i.e. iff the
tables are equal as values); it is reflexive; and replacing any single in-range
sample with a different value makes it return false. -/
theorem lookupTable_equals_correct :
    (∀ a : LookupTable, a.Equals a = true) ∧
    (∀ a b : LookupTable, a.Equals b = true ↔ a = b) ∧
    (∀ (a : LookupTable) (ch : Channel) (i j v : ℕ) (lut : List ℕ) (s : ℕ),
      (a.chan ch).get? i = some lut → lut.get? j = some s → v ≠ s →
      a.Equals (a.setSample ch i j v) = false) := by
  refine ⟨fun a => (lookupTable_equals_iff a a).mpr rfl, lookupTable_equals_iff, ?_⟩
  intro a ch i j v lut s hi hj hne
  have hne' : a ≠ a.setSample ch i j v := fun h => chan_set_ne a ch i j v lut s hi hj hne h.symm
  rcases h : a.Equals (a.setSample ch i j v) with _ | _
  · rfl
  · exact absurd ((lookupTable_equals_iff _ _).mp h) hne'

/-- Witness for C9 at a concrete table: reflexivity, and a single changed sample
(channel Red, controller 0, sample 1 changed from 65535 to 7) is detected. -/
theorem lookupTable_equals_correct_witness :
    LookupTable.Equals ⟨[[0, 65535]], [[0, 65535]], [[0, 65535]]⟩
      ⟨[[0, 65535]], [[0, 65535]], [[0, 65535]]⟩ = true ∧
    LookupTable.Equals ⟨[[0, 65535]], [[0, 65535]], [[0, 65535]]⟩
      ((⟨[[0, 65535]], [[0, 65535]], [[0, 65535]]⟩ : LookupTable).setSample Channel.Red 0 1 7) = false :=
  ⟨lookupTable_equals_correct.1 _,
   lookupTable_equals_correct.2.2 ⟨[[0, 65535]], [[0, 65535]], [[0, 65535]]⟩ Channel.Red 0 1 7
     [0, 65535] 65535 rfl rfl (by decide)⟩

/-- Function `truncQ` models the integer part computed by Go's `math.Modf` (truncation
toward zero), with `float64` modelled by `ℚ`. -/
def truncQ (x : ℚ) : ℤ := if 0 ≤ x then ⌊x⌋ else ⌈x⌉

/-- Function `modfQ` models Go's `math.Modf`: integer part (truncated toward zero) and
fractional part. -/
def modfQ (x : ℚ) : ℤ × ℚ := (truncQ x, x - (truncQ x : ℚ))

/-- Indexing `lut[i]` of a Go sample slice, with an out-of-range panic modelled
by `none`; the sample is converted to `ℚ` as by Go's `float64(...)`. -/
def lutAt (lut : List ℕ) (i : ℤ) : Option ℚ :=
  if 0 ≤ i then (lut.get? i.toNat).map (fun n => (n : ℚ)) else none

/-- One controller's contribution inside `gamma.LookupTable.XferFn`.  Faithful
to the source: the interpolation guard compares the sample index `base` against
`len(t)-1` where `t` is the per-channel list of CONTROLLERS (`tlen` here), not
the list of samples. -/
def crtcTerm (tlen : ℕ) (x : ℚ) (lut : List ℕ) : Option ℚ :=
  let bf := modfQ (x * (lut.length : ℚ))
  if bf.1 < (tlen : ℤ) - 1 then
    match lutAt lut bf.1, lutAt lut (bf.1 + 1) with
    | some a, some b => some (a * (1 - bf.2) + b * bf.2)
    | _, _ => none
  else lutAt lut bf.1

/-- The accumulation loop of `gamma.LookupTable.XferFn` over the controllers of
one channel. -/
def sumTerms (tlen : ℕ) (x : ℚ) : List (List ℕ) → Option ℚ
  | [] => some 0
  | lut :: rest =>
    match crtcTerm tlen x lut, sumTerms tlen x rest with
    | some v, some sacc => some (v + sacc)
    | _, _ => none

/-- Models `gamma.LookupTable.XferFn`: the Transfer Function derived from a
snapshot (normalized by 65535 and averaged over controllers). -/
def LookupTable.XferFn (lt : LookupTable) (ch : Channel) (x : ℚ) : Option ℚ :=
  (sumTerms (lt.chan ch).length x (lt.chan ch)).map
    (fun acc => acc / (((lt.chan ch).length : ℚ)) / 65535)

/-- One controller's contribution as the spec describes it: linear interpolation
between the two samples adjacent to the input, interpolating whenever a next
sample exists (guard on the SAMPLE count, not the controller count). -/
def crtcTermInterp (x : ℚ) (lut : List ℕ) : Option ℚ :=
  let bf := modfQ (x * (lut.length : ℚ))
  if bf.1 < (lut.length : ℤ) - 1 then
    match lutAt lut bf.1, lutAt lut (bf.1 + 1) with
    | some a, some b => some (a * (1 - bf.2) + b * bf.2)
    | _, _ => none
  else lutAt lut bf.1

/-- The spec's version of the accumulation loop, using `crtcTermInterp`. -/
def sumTermsInterp (x : ℚ) : List (List ℕ) → Option ℚ
  | [] => some 0
  | lut :: rest =>
    match crtcTermInterp x lut, sumTermsInterp x rest with
    | some v, some sacc => some (v + sacc)
    | _, _ => none

/-- The snapshot-to-Transfer-Function conversion as described by the spec:
"linear interpolation between the snapshot's two samples adjacent to that
input (normalized to [0,1] and averaged over controllers)". -/
def LookupTable.interpXferFn (lt : LookupTable) (ch : Channel) (x : ℚ) : Option ℚ :=
  (sumTermsInterp x (lt.chan ch)).map
    (fun acc => acc / (((lt.chan ch).length : ℚ)) / 65535)

/-- Claim C8 (code bug): on the snapshot with one controller and samples
`[0, 65535]`, the code's conversion evaluated at input 1/4 returns 0 (it takes
the floor sample without interpolating, because its guard compares the sample
index against the CONTROLLER count `len(t)-1`), whereas the linear
interpolation the claim and the function's own doc comment describe yields 1/2. -/
theorem lookupTable_xferFn_no_interpolation :
    (⟨[[0, 65535]], [[0, 65535]], [[0, 65535]]⟩ : LookupTable).XferFn Channel.Red (1/4) =
      some 0 ∧
    (⟨[[0, 65535]], [[0, 65535]], [[0, 65535]]⟩ : LookupTable).interpXferFn Channel.Red (1/4) =
      some (1/2) := by
  constructor <;>
    · simp only [LookupTable.XferFn, LookupTable.interpXferFn, LookupTable.chan, sumTerms,
        sumTermsInterp, crtcTerm, crtcTermInterp, modfQ, truncQ, lutAt, List.length_cons,
        List.length_nil, List.get?]
      norm_num

/-- Type `Cmd` models `alert.Cmd` (noCmd, Warble, Strobe, Exit). -/
inductive Cmd
  | noCmd
  | Warble
  | Strobe
  | Exit
deriving DecidableEq, Repr

/-- The two concrete effect bodies ever pushed by `alert.Xft`. -/
inductive EffKind
  | warble
  | strobe
deriving DecidableEq, Repr

/-- Models `alert.effect`: a start timestamp plus the apply function
(identified by its kind). -/
structure Effect where
  start : ℤ
  kind : EffKind
deriving DecidableEq, Repr

/-- The warble period, `125 * time.Millisecond`, in nanoseconds. -/
def warblePeriod : ℤ := 125000000

/-- The warble duration, `period * cycles` (625ms), in nanoseconds. -/
def warbleDuration : ℤ := 625000000

/-- The strobe duration, `1250 * time.Millisecond`, in nanoseconds. -/
def strobeDuration : ℤ := 1250000000

/-- The constant `alert.enterExitDuration` (250ms) in nanoseconds. -/
def enterExitDuration : ℤ := 250000000

/-- Models `alert.warble`: `done` strictly after 625ms, otherwise a cosine
oscillation blended at weight 1/12; the fractional position in the cycle
(`math.Modf`) is computed exactly over `ℚ`. -/
noncomputable def warble (since : ℤ) (s : ℝ) : ℝ × Bool :=
  if warbleDuration < since then (s, true)
  else
    let pos : ℚ := (modfQ ((since : ℚ) / (warblePeriod : ℚ))).2
    let pow : ℝ := Real.cos (2 * Real.pi * (pos : ℝ)) / 2 + 0.5
    (1 - (1 - s) * ((1 - 1/12) + (1/12) * pow), false)

/-- Models `alert.strobe`: `done` strictly after 1250ms, otherwise a linear
ramp of the blend weight from 0.5 to 1. -/
noncomputable def strobe (since : ℤ) (s : ℝ) : ℝ × Bool :=
  if strobeDuration < since then (s, true)
  else
    let pos : ℝ := (since : ℝ) / (strobeDuration : ℝ)
    (1 - (1 - s) * (0.5 + 0.5 * pos), false)

/-- Dispatches an `EffKind` to its apply function. -/
noncomputable def applyEffect : EffKind → ℤ → ℝ → ℝ × Bool
  | EffKind.warble => warble
  | EffKind.strobe => strobe

/-- Models the effect-folding loop of `alert.Xft`: starting from strength 0 it
applies each active effect in order; a `done` effect is removed by swapping the
last element into its slot and shrinking the list; a surviving effect forces
`sleepFor = 0` (tracked by the `active` flag). -/
noncomputable def runEffects (t : ℤ) (effects : List Effect) (idx : ℕ) (s : ℝ) (active : Bool) :
    ℝ × List Effect × Bool :=
  if h : idx < effects.length then
    let e := effects.get ⟨idx, h⟩
    let r := applyEffect e.kind (t - e.start) s
    if r.2 then
      runEffects t ((effects.set idx (effects.getLastD ⟨0, EffKind.warble⟩)).dropLast) idx r.1 active
    else
      runEffects t effects (idx + 1) r.1 true
  else (s, effects, active)
termination_by effects.length - idx
decreasing_by
  · simp only [List.length_dropLast, List.length_set]; omega
  · omega

/-- The stage of the alert state machine (`enter`, `static`, `exit`). -/
inductive Stage
  | enter
  | static
  | exit
deriving DecidableEq, Repr

/-- The state of `alert.Xft` that survives between calls: the closure
variables `stage`, `stageStart` and `effects`. -/
structure AlertState where
  stage : Stage
  stageStart : ℤ
  effects : List Effect

/-- The per-tick outputs of `alert.Xft` (besides the returned curve, which is
determined by `strength` and `effectStrength` via `tickFn`). -/
structure TickOut where
  strength : ℝ
  effectStrength : ℝ
  sleepFor : ℤ
  exitFlag : Bool

/-- The initial closure state of `alert.Xft` (zero values: stage `enter`,
stageStart 0, no effects). -/
def initAlert : AlertState := ⟨Stage.enter, 0, []⟩

/-- Result of the command-handling switch of `alert.Xft`. -/
structure CmdOut where
  stage : Stage
  stageStart : ℤ
  sinceStage : ℤ
  effects : List Effect

/-- Models the command-handling switch of `alert.Xft`: Warble/Strobe append an
effect starting now; Exit from `static` resets the stage timer; Exit from
`enter` rebases the stage origin so the fade-out resumes from the current
partial strength. -/
def cmdPhase (st : AlertState) (t : ℤ) (cmd : Cmd) : CmdOut :=
  let sinceStage := t - st.stageStart
  match cmd with
  | Cmd.Warble => ⟨st.stage, st.stageStart, sinceStage, st.effects ++ [⟨t, EffKind.warble⟩]⟩
  | Cmd.Strobe => ⟨st.stage, st.stageStart, sinceStage, st.effects ++ [⟨t, EffKind.strobe⟩]⟩
  | Cmd.Exit =>
    match st.stage with
    | Stage.static => ⟨Stage.exit, t, 0, st.effects⟩
    | Stage.enter =>
      ⟨Stage.exit, t - (enterExitDuration - sinceStage), enterExitDuration - sinceStage, st.effects⟩
    | Stage.exit => ⟨st.stage, st.stageStart, sinceStage, st.effects⟩
  | Cmd.noCmd => ⟨st.stage, st.stageStart, sinceStage, st.effects⟩

/-- Result of the stage switch of `alert.Xft`. -/
structure StageOut where
  strength : ℝ
  sleepFor : ℤ
  stage : Stage
  stageStart : ℤ
  exitFlag : Bool

/-- Models the stage switch of `alert.Xft`: `static` pins strength at 1 with a
2s idle sleep; `enter` ramps strength up linearly and becomes `static` at 1;
`exit` ramps strength down linearly, clamping at 0 with the exit flag. -/
noncomputable def stagePhase (t : ℤ) (stage : Stage) (stageStart sinceStage : ℤ) : StageOut :=
  match stage with
  | Stage.static => ⟨1, 2000000000, stage, stageStart, false⟩
  | Stage.enter =>
    let s : ℝ := (sinceStage : ℝ) / (enterExitDuration : ℝ)
    if 1 ≤ s then ⟨1, 0, Stage.static, t, false⟩ else ⟨s, 0, stage, stageStart, false⟩
  | Stage.exit =>
    let s : ℝ := 1 - (sinceStage : ℝ) / (enterExitDuration : ℝ)
    if s < 0 then ⟨0, 0, stage, stageStart, true⟩ else ⟨s, 0, stage, stageStart, false⟩

/-- One call of the closure returned by `alert.Xft`, as an explicit
state-passing step: command handling, stage switch, then the effect fold. -/
noncomputable def xftStep (st : AlertState) (t : ℤ) (event : Option Cmd) : AlertState × TickOut :=
  let c := cmdPhase st t (event.getD Cmd.noCmd)
  let p := stagePhase t c.stage c.stageStart c.sinceStage
  let r := runEffects t c.effects 0 0 false
  (⟨p.stage, p.stageStart, r.2.1⟩,
   ⟨p.strength, r.1, if r.2.2 then 0 else p.sleepFor, p.exitFlag⟩)

/-- The curve returned by one call of `alert.Xft`, determined by the tick's
`strength` and `effectStrength`: red compensation `0.2 + 0.6*effectStrength`,
green/blue compensation `0.6*effectStrength`, blended with the baseline by
`strength`. -/
noncomputable def tickFn (out : TickOut) (baseFn : XferFn) : XferFn := fun ch x =>
  let rCmp : ℝ := 0.2 + out.effectStrength * 0.6
  let oCmp : ℝ := 0 + out.effectStrength * 0.6
  let base := baseFn ch x
  let fx : ℝ :=
    match ch with
    | Channel.Red => base * (1 - rCmp) + rCmp
    | Channel.Green => base * (1 - oCmp)
    | Channel.Blue => base * (1 - oCmp)
  out.strength * fx + (1 - out.strength) * base

theorem runEffects_nil (t : ℤ) (idx : ℕ) (s : ℝ) (active : Bool) :
    runEffects t [] idx s active = (s, [], active) := by
  rw [runEffects]
  simp

/-- Claim C5: an Exit command delivered while the state machine is in the
entering stage with stage-elapsed `e` makes the stage `exiting` with new
`stageStart = now - (250ms - e)`, and the strength produced by that same tick
equals the entering strength `e / 250ms`. -/
theorem exit_during_entering (st : AlertState) (t e : ℤ)
    (hstage : st.stage = Stage.enter) (he : e = t - st.stageStart) (hpos : 0 ≤ e) :
    (xftStep st t (some Cmd.Exit)).1.stage = Stage.exit ∧
    (xftStep st t (some Cmd.Exit)).1.stageStart = t - (enterExitDuration - e) ∧
    (xftStep st t (some Cmd.Exit)).2.strength = (e : ℝ) / (enterExitDuration : ℝ) := by
  rcases st with ⟨stg, ss, effs⟩
  simp only at hstage he
  subst hstage
  have he' : t - ss = e := he.symm
  have hE : (0 : ℝ) < ((enterExitDuration : ℤ) : ℝ) := by norm_num [enterExitDuration]
  have hc : cmdPhase ⟨Stage.enter, ss, effs⟩ t Cmd.Exit =
      ⟨Stage.exit, t - (enterExitDuration - e), enterExitDuration - e, effs⟩ := by
    simp [cmdPhase, he']
  have hcast : (((enterExitDuration - e) : ℤ) : ℝ) = ((enterExitDuration : ℤ) : ℝ) - (e : ℝ) := by
    push_cast
    ring
  have hval : (1 : ℝ) - (((enterExitDuration - e) : ℤ) : ℝ) / ((enterExitDuration : ℤ) : ℝ)
      = (e : ℝ) / ((enterExitDuration : ℤ) : ℝ) := by
    rw [hcast, sub_div, div_self hE.ne']
    ring
  have hneg : ¬ ((1 : ℝ) - (((enterExitDuration - e) : ℤ) : ℝ) /
      ((enterExitDuration : ℤ) : ℝ) < 0) := by
    rw [hval, not_lt]
    exact div_nonneg (by exact_mod_cast hpos) hE.le
  have hs : stagePhase t Stage.exit (t - (enterExitDuration - e)) (enterExitDuration - e) =
      ⟨(e : ℝ) / ((enterExitDuration : ℤ) : ℝ), 0, Stage.exit, t - (enterExitDuration - e), false⟩ := by
    simp only [stagePhase]
    rw [if_neg hneg, hval]
  simp [xftStep, Option.getD, hc, hs]

/-- Witness for C5: Exit at 100ms into entering yields stage `exit`,
stageStart shifted by 150ms, and strength 100/250 = 0.4. -/
theorem exit_during_entering_witness :
    (xftStep ⟨Stage.enter, 0, []⟩ 100000000 (some Cmd.Exit)).1.stage = Stage.exit ∧
    (xftStep ⟨Stage.enter, 0, []⟩ 100000000 (some Cmd.Exit)).1.stageStart =
      100000000 - (enterExitDuration - 100000000) ∧
    (xftStep ⟨Stage.enter, 0, []⟩ 100000000 (some Cmd.Exit)).2.strength =
      ((100000000 : ℤ) : ℝ) / ((enterExitDuration : ℤ) : ℝ) ∧
    ((100000000 : ℤ) : ℝ) / ((enterExitDuration : ℤ) : ℝ) = 0.4 := by
  refine ⟨?_, ?_, ?_, by norm_num [enterExitDuration]⟩ <;>
    exact (exit_during_entering ⟨Stage.enter, 0, []⟩ 100000000 100000000 rfl (by norm_num)
      (by norm_num)).elim (fun h1 h23 => by
        first
          | exact h1
          | exact h23.1
          | exact h23.2)

/-- Claim C6 counterexample: at elapsed time exactly 625ms the warble effect
does NOT report `done = true` (the code's guard is a strict `since > duration`),
refuting the claim that it reports `done = true` there with output = input. -/
theorem warble_at_duration_not_done :
    (warble warbleDuration (0 : ℝ)).2 = false := by
  simp [warble]

/-- Claim C6 amended: a warble ticked at exactly 625ms passes its input
through unchanged but reports `done = false`; `done = true` (with output =
input) happens only for elapsed time strictly greater than 625ms. -/
theorem warble_at_duration (s : ℝ) :
    warble warbleDuration s = (s, false) ∧
    ∀ u : ℤ, warbleDuration < u → warble u s = (s, true) := by
  constructor
  · have hpos : (modfQ ((warbleDuration : ℚ) / (warblePeriod : ℚ))).2 = 0 := by
      norm_num [modfQ, truncQ, warbleDuration, warblePeriod]
    simp only [warble, lt_irrefl, if_false, hpos]
    norm_num [Real.cos_zero]
  · intro u hu
    simp [warble, hu]

/-- Witness for C6's amended theorem at input strength 0 and elapsed
625ms and 625ms + 1ns. -/
theorem warble_at_duration_witness :
    warble warbleDuration (0 : ℝ) = (0, false) ∧
    warble (warbleDuration + 1) (0 : ℝ) = (0, true) :=
  ⟨(warble_at_duration 0).1, (warble_at_duration 0).2 (warbleDuration + 1) (lt_add_one _)⟩

theorem warble_mem_Icc (since : ℤ) (s : ℝ) (h0 : 0 ≤ s) (h1 : s ≤ 1) :
    0 ≤ (warble since s).1 ∧ (warble since s).1 ≤ 1 := by
  unfold warble
  split
  · exact ⟨h0, h1⟩
  · simp only
    have hc1 := Real.cos_le_one
      (2 * Real.pi * (((modfQ ((since : ℚ) / (warblePeriod : ℚ))).2 : ℚ) : ℝ))
    have hc2 := Real.neg_one_le_cos
      (2 * Real.pi * (((modfQ ((since : ℚ) / (warblePeriod : ℚ))).2 : ℚ) : ℝ))
    constructor <;> nlinarith

theorem strobe_mem_Icc (since : ℤ) (s : ℝ) (hs : 0 ≤ since) (h0 : 0 ≤ s) (h1 : s ≤ 1) :
    0 ≤ (strobe since s).1 ∧ (strobe since s).1 ≤ 1 := by
  unfold strobe
  split
  · exact ⟨h0, h1⟩
  · rename_i h
    simp only
    have hle : (since : ℝ) ≤ ((strobeDuration : ℤ) : ℝ) := by exact_mod_cast not_lt.mp h
    have hsr : (0 : ℝ) ≤ (since : ℝ) := by exact_mod_cast hs
    have hD : (0 : ℝ) < ((strobeDuration : ℤ) : ℝ) := by norm_num [strobeDuration]
    have hp0 : (0 : ℝ) ≤ (since : ℝ) / ((strobeDuration : ℤ) : ℝ) := div_nonneg hsr hD.le
    have hp1 : (since : ℝ) / ((strobeDuration : ℤ) : ℝ) ≤ 1 := (div_le_one hD).mpr hle
    constructor <;> nlinarith

theorem applyEffect_mem_Icc (k : EffKind) (since : ℤ) (s : ℝ)
    (hs : 0 ≤ since) (h0 : 0 ≤ s) (h1 : s ≤ 1) :
    0 ≤ (applyEffect k since s).1 ∧ (applyEffect k since s).1 ≤ 1 := by
  cases k
  · exact warble_mem_Icc since s h0 h1
  · exact strobe_mem_Icc since s hs h0 h1

theorem swapRemove_subset (l : List Effect) (i : ℕ) (d : Effect) (hl : l ≠ [])
    (x : Effect) (hx : x ∈ (l.set i (l.getLastD d)).dropLast) : x ∈ l := by
  have hx' : x ∈ l.set i (l.getLastD d) := List.dropLast_subset _ hx
  rcases List.mem_or_eq_of_mem_set hx' with h | h
  · exact h
  · subst h
    rw [List.getLastD_eq_getLast?, List.getLast?_eq_getLast l hl]
    simp [List.getLast_mem]

theorem runEffects_strength_mem (t : ℤ) :
    ∀ (n : ℕ) (effects : List Effect) (idx : ℕ) (s : ℝ) (active : Bool),
      effects.length - idx ≤ n →
      (∀ e ∈ effects, e.start ≤ t) →
      0 ≤ s → s ≤ 1 →
      0 ≤ (runEffects t effects idx s active).1 ∧ (runEffects t effects idx s active).1 ≤ 1 := by
  intro n
  induction n with
  | zero =>
    intro effects idx s active hn hmem h0 h1
    rw [runEffects, dif_neg (by omega)]
    exact ⟨h0, h1⟩
  | succ n ih =>
    intro effects idx s active hn hmem h0 h1
    rw [runEffects]
    by_cases h : idx < effects.length
    · rw [dif_pos h]
      simp only
      have hmem_e : effects.get ⟨idx, h⟩ ∈ effects := List.get_mem effects idx h
      have hstart : (effects.get ⟨idx, h⟩).start ≤ t := hmem _ hmem_e
      have hr := applyEffect_mem_Icc (effects.get ⟨idx, h⟩).kind
        (t - (effects.get ⟨idx, h⟩).start) s (by omega) h0 h1
      split
      · apply ih
        · simp only [List.length_dropLast, List.length_set]; omega
        · intro x hx
          exact hmem x (swapRemove_subset effects idx ⟨0, EffKind.warble⟩
            (List.ne_nil_of_length_pos (by omega)) x hx)
        · exact hr.1
        · exact hr.2
      · exact ih effects (idx + 1) _ true (by omega) hmem hr.1 hr.2
    · rw [dif_neg h]
      exact ⟨h0, h1⟩

theorem runEffects_effects_subset (t : ℤ) :
    ∀ (n : ℕ) (effects : List Effect) (idx : ℕ) (s : ℝ) (active : Bool),
      effects.length - idx ≤ n →
      ∀ x ∈ (runEffects t effects idx s active).2.1, x ∈ effects := by
  intro n
  induction n with
  | zero =>
    intro effects idx s active hn x hx
    rw [runEffects, dif_neg (by omega)] at hx
    exact hx
  | succ n ih =>
    intro effects idx s active hn x hx
    rw [runEffects] at hx
    by_cases h : idx < effects.length
    · rw [dif_pos h] at hx
      simp only at hx
      split at hx
      · have hsub := ih ((effects.set idx (effects.getLastD ⟨0, EffKind.warble⟩)).dropLast) idx _ _
          (by simp only [List.length_dropLast, List.length_set]; omega) x hx
        exact swapRemove_subset effects idx ⟨0, EffKind.warble⟩
          (List.ne_nil_of_length_pos (by omega)) x hsub
      · exact ih effects (idx + 1) _ true (by omega) x hx
    · rw [dif_neg h] at hx
      exact hx

/-- Invariant of the alert state relative to the next tick time `t`: the stage
origin and every effect's start lie in the past. -/
def AlertInv (st : AlertState) (t : ℤ) : Prop :=
  st.stageStart ≤ t ∧ ∀ e ∈ st.effects, e.start ≤ t

/-- Side condition of one tick: an Exit command delivered in the entering
stage arrives with stage-elapsed at most 250ms. -/
def SafeTick (st : AlertState) (t : ℤ) (ev : Option Cmd) : Prop :=
  st.stage = Stage.enter → ev = some Cmd.Exit → t - st.stageStart ≤ enterExitDuration

theorem cmdPhase_props (st : AlertState) (t : ℤ) (cmd : Cmd)
    (hss : st.stageStart ≤ t)
    (hsafe : st.stage = Stage.enter → cmd = Cmd.Exit → t - st.stageStart ≤ enterExitDuration)
    (hmem : ∀ e ∈ st.effects, e.start ≤ t) :
    (cmdPhase st t cmd).stageStart ≤ t ∧
    t - (cmdPhase st t cmd).stageStart = (cmdPhase st t cmd).sinceStage ∧
    (∀ e ∈ (cmdPhase st t cmd).effects, e.start ≤ t) := by
  rcases st with ⟨stg, ss, effs⟩
  simp only at hss hsafe hmem
  cases cmd with
  | noCmd => exact ⟨hss, by simp [cmdPhase], by simpa [cmdPhase] using hmem⟩
  | Warble =>
    refine ⟨hss, by simp [cmdPhase], ?_⟩
    intro e he
    simp only [cmdPhase, List.mem_append, List.mem_singleton] at he
    rcases he with he | he
    · exact hmem e he
    · rw [he]
  | Strobe =>
    refine ⟨hss, by simp [cmdPhase], ?_⟩
    intro e he
    simp only [cmdPhase, List.mem_append, List.mem_singleton] at he
    rcases he with he | he
    · exact hmem e he
    · rw [he]
  | Exit =>
    cases stg with
    | static =>
      refine ⟨le_refl t, by simp [cmdPhase], ?_⟩
      simpa [cmdPhase] using hmem
    | enter =>
      have hle : t - ss ≤ enterExitDuration := hsafe rfl rfl
      refine ⟨?_, ?_, by simpa [cmdPhase] using hmem⟩
      · simp only [cmdPhase]
        omega
      · simp only [cmdPhase]
        omega
    | exit => exact ⟨hss, by simp [cmdPhase], by simpa [cmdPhase] using hmem⟩

theorem stagePhase_props (t : ℤ) (stage : Stage) (stageStart sinceStage : ℤ)
    (hss : stageStart ≤ t) (hsince : 0 ≤ sinceStage) :
    (0 ≤ (stagePhase t stage stageStart sinceStage).strength ∧
      (stagePhase t stage stageStart sinceStage).strength ≤ 1) ∧
    (stagePhase t stage stageStart sinceStage).stageStart ≤ t := by
  have hE : (0 : ℝ) < ((enterExitDuration : ℤ) : ℝ) := by norm_num [enterExitDuration]
  have hs0 : (0 : ℝ) ≤ ((sinceStage : ℤ) : ℝ) := by exact_mod_cast hsince
  cases stage with
  | static => exact ⟨⟨zero_le_one, le_refl 1⟩, hss⟩
  | enter =>
    simp only [stagePhase]
    split
    · exact ⟨⟨zero_le_one, le_refl 1⟩, le_refl t⟩
    · rename_i h
      rw [not_le] at h
      exact ⟨⟨div_nonneg hs0 hE.le, le_of_lt h⟩, hss⟩
  | exit =>
    simp only [stagePhase]
    split
    · exact ⟨⟨le_refl 0, zero_le_one⟩, hss⟩
    · rename_i h
      rw [not_lt] at h
      refine ⟨⟨h, ?_⟩, hss⟩
      have hd : (0 : ℝ) ≤ ((sinceStage : ℤ) : ℝ) / ((enterExitDuration : ℤ) : ℝ) :=
        div_nonneg hs0 hE.le
      linarith

theorem blend_mem (a fx b : ℝ) (ha0 : 0 ≤ a) (ha1 : a ≤ 1) (hf0 : 0 ≤ fx) (hf1 : fx ≤ 1)
    (hb0 : 0 ≤ b) (hb1 : b ≤ 1) : 0 ≤ a * fx + (1 - a) * b ∧ a * fx + (1 - a) * b ≤ 1 := by
  constructor <;> nlinarith [mul_nonneg ha0 hf0, mul_nonneg (sub_nonneg.2 ha1) hb0,
    mul_nonneg ha0 (sub_nonneg.2 hf1), mul_nonneg (sub_nonneg.2 ha1) (sub_nonneg.2 hb1)]

theorem tickFn_mem (out : TickOut) (baseFn : XferFn)
    (ha0 : 0 ≤ out.strength) (ha1 : out.strength ≤ 1)
    (he0 : 0 ≤ out.effectStrength) (he1 : out.effectStrength ≤ 1)
    (hbase : ∀ c y, 0 ≤ y → y ≤ 1 → 0 ≤ baseFn c y ∧ baseFn c y ≤ 1)
    (ch : Channel) (x : ℝ) (hx0 : 0 ≤ x) (hx1 : x ≤ 1) :
    0 ≤ tickFn out baseFn ch x ∧ tickFn out baseFn ch x ≤ 1 := by
  obtain ⟨hb0, hb1⟩ := hbase ch x hx0 hx1
  unfold tickFn
  cases ch with
  | Red =>
    simp only
    have hf0 : 0 ≤ baseFn Channel.Red x * (1 - (0.2 + out.effectStrength * 0.6)) +
        (0.2 + out.effectStrength * 0.6) := by nlinarith [mul_nonneg hb0 (by nlinarith :
          (0 : ℝ) ≤ 1 - (0.2 + out.effectStrength * 0.6))]
    have hf1 : baseFn Channel.Red x * (1 - (0.2 + out.effectStrength * 0.6)) +
        (0.2 + out.effectStrength * 0.6) ≤ 1 := by
      nlinarith [mul_nonneg (sub_nonneg.2 hb1) (by nlinarith :
        (0 : ℝ) ≤ 1 - (0.2 + out.effectStrength * 0.6))]
    exact blend_mem _ _ _ ha0 ha1 hf0 hf1 hb0 hb1
  | Green =>
    simp only
    have hf0 : 0 ≤ baseFn Channel.Green x * (1 - (0 + out.effectStrength * 0.6)) := by
      nlinarith [mul_nonneg hb0 (by nlinarith : (0 : ℝ) ≤ 1 - (0 + out.effectStrength * 0.6))]
    have hf1 : baseFn Channel.Green x * (1 - (0 + out.effectStrength * 0.6)) ≤ 1 := by
      nlinarith [mul_nonneg hb0 (by nlinarith : (0 : ℝ) ≤ out.effectStrength * 0.6)]
    exact blend_mem _ _ _ ha0 ha1 hf0 hf1 hb0 hb1
  | Blue =>
    simp only
    have hf0 : 0 ≤ baseFn Channel.Blue x * (1 - (0 + out.effectStrength * 0.6)) := by
      nlinarith [mul_nonneg hb0 (by nlinarith : (0 : ℝ) ≤ 1 - (0 + out.effectStrength * 0.6))]
    have hf1 : baseFn Channel.Blue x * (1 - (0 + out.effectStrength * 0.6)) ≤ 1 := by
      nlinarith [mul_nonneg hb0 (by nlinarith : (0 : ℝ) ≤ out.effectStrength * 0.6)]
    exact blend_mem _ _ _ ha0 ha1 hf0 hf1 hb0 hb1

theorem getD_safe (ev : Option Cmd) (st : AlertState) (t : ℤ)
    (hsafe : SafeTick st t ev) :
    st.stage = Stage.enter → ev.getD Cmd.noCmd = Cmd.Exit →
      t - st.stageStart ≤ enterExitDuration := by
  intro h1 h2
  apply hsafe h1
  cases ev with
  | none => exact absurd h2 (by decide)
  | some c =>
    simp only [Option.getD] at h2
    rw [h2]

theorem xftStep_out_mem (st : AlertState) (t : ℤ) (ev : Option Cmd) (baseFn : XferFn)
    (hInv : AlertInv st t) (hsafe : SafeTick st t ev)
    (hbase : ∀ c y, 0 ≤ y → y ≤ 1 → 0 ≤ baseFn c y ∧ baseFn c y ≤ 1)
    (ch : Channel) (x : ℝ) (hx0 : 0 ≤ x) (hx1 : x ≤ 1) :
    0 ≤ tickFn (xftStep st t ev).2 baseFn ch x ∧ tickFn (xftStep st t ev).2 baseFn ch x ≤ 1 := by
  obtain ⟨hss', hsince, hmem'⟩ :=
    cmdPhase_props st t (ev.getD Cmd.noCmd) hInv.1 (getD_safe ev st t hsafe) hInv.2
  have hsince0 : 0 ≤ (cmdPhase st t (ev.getD Cmd.noCmd)).sinceStage := by omega
  obtain ⟨⟨ha0, ha1⟩, _⟩ := stagePhase_props t (cmdPhase st t (ev.getD Cmd.noCmd)).stage
    (cmdPhase st t (ev.getD Cmd.noCmd)).stageStart
    (cmdPhase st t (ev.getD Cmd.noCmd)).sinceStage hss' hsince0
  have hes := runEffects_strength_mem t (cmdPhase st t (ev.getD Cmd.noCmd)).effects.length
    (cmdPhase st t (ev.getD Cmd.noCmd)).effects 0 0 false (by omega) hmem' le_rfl zero_le_one
  exact tickFn_mem (xftStep st t ev).2 baseFn ha0 ha1 hes.1 hes.2 hbase ch x hx0 hx1

theorem xftStep_inv (st : AlertState) (t t2 : ℤ) (ev : Option Cmd)
    (hInv : AlertInv st t) (hsafe : SafeTick st t ev) (ht : t ≤ t2) :
    AlertInv (xftStep st t ev).1 t2 := by
  obtain ⟨hss', hsince, hmem'⟩ :=
    cmdPhase_props st t (ev.getD Cmd.noCmd) hInv.1 (getD_safe ev st t hsafe) hInv.2
  have hsince0 : 0 ≤ (cmdPhase st t (ev.getD Cmd.noCmd)).sinceStage := by omega
  obtain ⟨_, hss2⟩ := stagePhase_props t (cmdPhase st t (ev.getD Cmd.noCmd)).stage
    (cmdPhase st t (ev.getD Cmd.noCmd)).stageStart
    (cmdPhase st t (ev.getD Cmd.noCmd)).sinceStage hss' hsince0
  constructor
  · exact le_trans hss2 ht
  · intro e he
    have hmem2 := runEffects_effects_subset t (cmdPhase st t (ev.getD Cmd.noCmd)).effects.length
      (cmdPhase st t (ev.getD Cmd.noCmd)).effects 0 0 false (by omega) e he
    exact le_trans (hmem' e hmem2) ht

/-- Repeated calls of the alert step function over a list of
(tick time, event) pairs. -/
noncomputable def runTicks (st : AlertState) : List (ℤ × Option Cmd) → AlertState
  | [] => st
  | (t, ev) :: rest => runTicks (xftStep st t ev).1 rest

/-- A run of ticks is safe when tick times are non-decreasing (starting from
`tPrev`) and every Exit command delivered in the entering stage arrives with
stage-elapsed at most 250ms. -/
def SafeRun (st : AlertState) (tPrev : ℤ) : List (ℤ × Option Cmd) → Prop
  | [] => True
  | (t, ev) :: rest => tPrev ≤ t ∧ SafeTick st t ev ∧ SafeRun (xftStep st t ev).1 t rest

theorem alertInv_mono (st : AlertState) (t t2 : ℤ) (h : AlertInv st t) (ht : t ≤ t2) :
    AlertInv st t2 :=
  ⟨le_trans h.1 ht, fun e he => le_trans (h.2 e he) ht⟩

theorem safeRun_reaches : ∀ (ticks : List (ℤ × Option Cmd)) (st : AlertState) (tp t : ℤ)
    (ev : Option Cmd), AlertInv st tp → SafeRun st tp (ticks ++ [(t, ev)]) →
    AlertInv (runTicks st ticks) t ∧ SafeTick (runTicks st ticks) t ev := by
  intro ticks
  induction ticks with
  | nil =>
    intro st tp t ev hInv hsafe
    obtain ⟨htp, hst, _⟩ := hsafe
    exact ⟨alertInv_mono st tp t hInv htp, hst⟩
  | cons p rest ih =>
    intro st tp t ev hInv hsafe
    rcases p with ⟨t0, e0⟩
    obtain ⟨htp, hst, hrest⟩ := hsafe
    exact ih (xftStep st t0 e0).1 t0 t ev
      (xftStep_inv st t0 t0 e0 (alertInv_mono st tp t0 hInv htp) hst le_rfl) hrest

/-- Claim C7 amended: for any safe run of the Alert driver (non-decreasing
tick times starting at 0, every Exit delivered during the entering stage
arriving within 250ms of the stage origin) and a baseline mapping [0,1] into
[0,1], the curve produced by the final tick maps every input in [0,1] to an
output in [0,1] on every channel. -/
theorem alert_output_in_range (ticks : List (ℤ × Option Cmd)) (t : ℤ) (ev : Option Cmd)
    (baseFn : XferFn) (ch : Channel) (x : ℝ)
    (hrun : SafeRun initAlert 0 (ticks ++ [(t, ev)]))
    (hbase : ∀ c y, 0 ≤ y → y ≤ 1 → 0 ≤ baseFn c y ∧ baseFn c y ≤ 1)
    (hx0 : 0 ≤ x) (hx1 : x ≤ 1) :
    0 ≤ tickFn (xftStep (runTicks initAlert ticks) t ev).2 baseFn ch x ∧
    tickFn (xftStep (runTicks initAlert ticks) t ev).2 baseFn ch x ≤ 1 := by
  have h := safeRun_reaches ticks initAlert 0 t ev ⟨le_refl 0, by simp [initAlert]⟩ hrun
  exact xftStep_out_mem (runTicks initAlert ticks) t ev baseFn h.1 h.2 hbase ch x hx0 hx1

/-- Witness for C7's amended theorem: the one-tick run at time 0 with no event,
identity baseline, channel Red, input 1/2. -/
theorem alert_output_in_range_witness :
    0 ≤ tickFn (xftStep (runTicks initAlert []) 0 none).2 (fun _ y => y) Channel.Red (1/2) ∧
    tickFn (xftStep (runTicks initAlert []) 0 none).2 (fun _ y => y) Channel.Red (1/2) ≤ 1 :=
  alert_output_in_range [] 0 none (fun _ y => y) Channel.Red (1/2)
    (by
      refine ⟨le_refl 0, ?_, trivial⟩
      intro _ h
      cases h)
    (fun _ y h0 h1 => ⟨h0, h1⟩) (by norm_num) (by norm_num)

/-- Claim C7 counterexample: after a tick at time 0, delivering Exit at
t = 2500ms (still in the entering stage, stage-elapsed 2500ms) makes the
exiting strength 10, and with the in-range baseline constantly 0 the produced
curve returns 2 at (Red, 0) — outside [0,1]. -/
theorem alert_output_out_of_range :
    tickFn (xftStep (xftStep initAlert 0 none).1 2500000000 (some Cmd.Exit)).2
        (fun _ _ => 0) Channel.Red 0 = 2 ∧
    1 < tickFn (xftStep (xftStep initAlert 0 none).1 2500000000 (some Cmd.Exit)).2
        (fun _ _ => 0) Channel.Red 0 := by
  have h1 : (xftStep initAlert 0 none).1 = ⟨Stage.enter, 0, []⟩ := by
    simp [xftStep, initAlert, cmdPhase, stagePhase, runEffects_nil, Option.getD]
    norm_num [enterExitDuration]
  rw [h1]
  have h2 : tickFn (xftStep ⟨Stage.enter, 0, []⟩ 2500000000 (some Cmd.Exit)).2
      (fun _ _ => 0) Channel.Red 0 = 2 := by
    simp only [xftStep, cmdPhase, stagePhase, runEffects_nil, Option.getD, tickFn]
    norm_num [enterExitDuration]
  rw [h2]
  norm_num

/-- The error kinds of the animation loop (§7): session setup failure,
snapshot read failure, and foreign update. -/
inductive Err
  | setupFail
  | readFail
  | foreignUpdate
deriving DecidableEq, Repr

/-- The wake reason at the loop's three-way select (`<-o.cancel`,
`event = <-o.event`, `<-timer.C`). -/
inductive Wake (Ev : Type)
  | cancel
  | event (v : Ev)
  | timer

/-- The options of `animate.Animate` that the loop body reads (the clock
options only shift the oracle times and are absorbed by them). -/
structure Opts where
  updateInterval : ℤ
  exitOnForeignUpdate : Bool
  restoreOnExit : Bool

/-- The oracle environment of one loop iteration: the two snapshot reads
(`none` = read error), the driver-function call outputs, the wall-clock time
`now` captured after the write, and the wake reason of the select. -/
structure IterEnv (Fn Ev : Type) where
  readTop : Option LookupTable
  t : ℤ
  fnOut : Fn
  sleepOut : ℤ
  exitOut : Bool
  readBottom : Option LookupTable
  now : ℤ
  wake : Wake Ev

/-- The mutable state of `animate.animate`'s loop: `oldLut` (`none` models the
zero `LookupTable`), `baseFn`, the (mutable) restore flag, the pending exit
flag, the error variable, `lastUpdate`, the pending event, and the trace of
computed waits (`timer.Reset` arguments). -/
structure LoopSt (Fn Ev : Type) where
  oldLut : Option LookupTable
  baseFn : Option Fn
  restore : Bool
  exit : Bool
  err : Option Err
  lastUpdate : ℤ
  event : Option Ev
  waits : List ℤ

/-- The foreign-update check at the top of an iteration (steps 1–2): first
iteration adopts the snapshot's Transfer Function as baseline; later iterations
compare against the previous bottom-of-iteration snapshot and either break with
ForeignUpdate (suppressing restore) or rebase, by policy. -/
def foreignCheck {Fn Ev : Type} (o : Opts) (deriveFn : LookupTable → Fn)
    (st : LoopSt Fn Ev) (newLut : LookupTable) : LoopSt Fn Ev × Bool :=
  match st.oldLut with
  | none => ({ st with baseFn := some (deriveFn newLut) }, false)
  | some old =>
    if newLut.Equals old then (st, false)
    else if o.exitOnForeignUpdate then
      ({ st with err := some Err.foreignUpdate, restore := false }, true)
    else ({ st with baseFn := some (deriveFn newLut) }, false)

/-- One iteration of `animate.animate`'s loop body (after the top-of-loop exit
check): read, foreign check, driver call and write (oracle outputs), re-read,
wait computation, and the three-way select.  The `Bool` result is true when
the iteration breaks the loop. -/
def iterBody {Fn Ev : Type} (o : Opts) (deriveFn : LookupTable → Fn)
    (st : LoopSt Fn Ev) (env : IterEnv Fn Ev) : LoopSt Fn Ev × Bool :=
  match env.readTop with
  | none => ({ st with err := some Err.readFail }, true)
  | some newLut =>
    let fc := foreignCheck o deriveFn st newLut
    if fc.2 then (fc.1, true)
    else
      let st2 := { fc.1 with exit := env.exitOut }
      match env.readBottom with
      | none => ({ st2 with err := some Err.readFail }, true)
      | some lut2 =>
        let st3 := { st2 with oldLut := some lut2 }
        let extraTime := o.updateInterval - (env.now - st3.lastUpdate)
        let s1 := if env.sleepOut < extraTime then extraTime else env.sleepOut
        let s2 := if s1 < 0 then 0 else s1
        let st4 := { st3 with lastUpdate := env.now, waits := st3.waits ++ [s2] }
        match env.wake with
        | Wake.cancel => (st4, true)
        | Wake.event v => ({ st4 with event := some v }, false)
        | Wake.timer => ({ st4 with event := none }, false)

/-- The loop of `animate.animate` over a list of scripted iteration
environments.  The `Bool` result is true when the loop terminated (break)
within the script; exhausting the script with a pending exit flag also
terminates (the `if exit break` at the top of the next iteration). -/
def runIters {Fn Ev : Type} (o : Opts) (deriveFn : LookupTable → Fn) :
    LoopSt Fn Ev → List (IterEnv Fn Ev) → LoopSt Fn Ev × Bool
  | st, [] => (st, st.exit)
  | st, env :: rest =>
    if st.exit then (st, true)
    else
      let r := iterBody o deriveFn st env
      if r.2 then (r.1, true) else runIters o deriveFn r.1 rest

/-- The observable outcome of a run: whether the goroutine returned, the
values sent on the error channel, whether it was closed, and the `SetGamma`
calls made by the restore-on-exit block. -/
structure RunResult (Fn Ev : Type) where
  terminated : Bool
  sent : List Err
  closed : Bool
  restoreWrites : List (Option Fn)
  finalSt : LoopSt Fn Ev

/-- The initial loop state: zero `oldLut` and `baseFn`, restore flag from the
options, no pending exit, no error, zero `lastUpdate`, no pending event. -/
def initLoopSt {Fn Ev : Type} (o : Opts) : LoopSt Fn Ev :=
  { oldLut := none, baseFn := none, restore := o.restoreOnExit, exit := false,
    err := none, lastUpdate := 0, event := none, waits := [] }

/-- The post-loop code of `animate.animate`: the restore-on-exit write, then
`if err != nil { o.err <- err }; close(o.err)`. -/
def finish {Fn Ev : Type} (st : LoopSt Fn Ev) : RunResult Fn Ev :=
  { terminated := true,
    sent := match st.err with | some e => [e] | none => [],
    closed := true,
    restoreWrites := if st.restore then [st.baseFn] else [],
    finalSt := st }

/-- A whole run of `animate.animate`: session setup (failure jumps to `bail`,
skipping the restore block), then the loop, then the post-loop code.  A run
whose script ends without a break models a still-running animation. -/
def animateRun {Fn Ev : Type} (o : Opts) (deriveFn : LookupTable → Fn) (setupOk : Bool)
    (envs : List (IterEnv Fn Ev)) : RunResult Fn Ev :=
  if setupOk then
    let r := runIters o deriveFn (initLoopSt o) envs
    if r.2 then finish r.1
    else { terminated := false, sent := [], closed := false, restoreWrites := [], finalSt := r.1 }
  else
    { terminated := true, sent := [Err.setupFail], closed := true, restoreWrites := [],
      finalSt := initLoopSt o }

theorem runIters_cons {Fn Ev : Type} (o : Opts) (deriveFn : LookupTable → Fn)
    (st : LoopSt Fn Ev) (env : IterEnv Fn Ev) (rest : List (IterEnv Fn Ev))
    (hexit : st.exit = false) (h2 : (iterBody o deriveFn st env).2 = false) :
    runIters o deriveFn st (env :: rest) = runIters o deriveFn (iterBody o deriveFn st env).1 rest := by
  simp [runIters, hexit, h2]

/-- Claim C1: on an iteration after the first (a previous snapshot was
captured), if the fresh snapshot differs from it then under the exit policy the
loop terminates delivering the ForeignUpdate error (and suppresses restore),
and under the rebase policy the baseline becomes the new snapshot's derived
Transfer Function and the loop continues; if the snapshots are equal, no
ForeignUpdate error is raised and the baseline is unchanged. -/
theorem foreign_update_policy {Fn Ev : Type} (o : Opts) (deriveFn : LookupTable → Fn)
    (st : LoopSt Fn Ev) (env : IterEnv Fn Ev) (rest : List (IterEnv Fn Ev))
    (prev newLut : LookupTable)
    (hexit : st.exit = false) (hold : st.oldLut = some prev)
    (hread : env.readTop = some newLut) (herr : st.err = none) :
    (newLut.Equals prev = false → o.exitOnForeignUpdate = true →
      runIters o deriveFn st (env :: rest) =
        ({ st with err := some Err.foreignUpdate, restore := false }, true) ∧
      (finish ({ st with err := some Err.foreignUpdate, restore := false } : LoopSt Fn Ev)).sent =
        [Err.foreignUpdate]) ∧
    (newLut.Equals prev = false → o.exitOnForeignUpdate = false →
      (iterBody o deriveFn st env).1.baseFn = some (deriveFn newLut) ∧
      ((iterBody o deriveFn st env).2 = false →
        runIters o deriveFn st (env :: rest) =
          runIters o deriveFn (iterBody o deriveFn st env).1 rest)) ∧
    (newLut.Equals prev = true →
      (iterBody o deriveFn st env).1.err ≠ some Err.foreignUpdate ∧
      (iterBody o deriveFn st env).1.baseFn = st.baseFn) := by
  obtain ⟨rt, tt, fo, so, eo, rb, nw, wk⟩ := env
  simp only at hread
  subst hread
  refine ⟨?_, ?_, ?_⟩
  · intro hne hpol
    constructor
    · simp [runIters, iterBody, foreignCheck, hexit, hold, hne, hpol]
    · simp [finish]
  · intro hne hpol
    constructor
    · cases rb <;> cases wk <;> simp [iterBody, foreignCheck, hold, hne, hpol]
    · intro h2
      exact runIters_cons o deriveFn st _ rest hexit h2
  · intro heq
    constructor
    · cases rb <;> cases wk <;> simp [iterBody, foreignCheck, hold, heq, herr]
    · cases rb <;> cases wk <;> simp [iterBody, foreignCheck, hold, heq]

/-- Witness for C1 (exit policy) at concrete tables: the previous snapshot is
`[[0]]` per channel, the fresh one differs on Red, and the run breaks with
ForeignUpdate, restore suppressed, delivering exactly that error. -/
theorem foreign_update_policy_witness :
    runIters ⟨33333333, true, true⟩ (fun _ => ())
      ({ oldLut := some ⟨[[0]], [[0]], [[0]]⟩, baseFn := some (), restore := true, exit := false,
         err := none, lastUpdate := 0, event := none, waits := [] } : LoopSt Unit Unit)
      [⟨some ⟨[[1]], [[0]], [[0]]⟩, 0, (), 0, false, some ⟨[[1]], [[0]], [[0]]⟩, 0, Wake.timer⟩] =
      ({ oldLut := some ⟨[[0]], [[0]], [[0]]⟩, baseFn := some (), restore := false, exit := false,
         err := some Err.foreignUpdate, lastUpdate := 0, event := none, waits := [] }, true) ∧
    (finish ({ oldLut := some ⟨[[0]], [[0]], [[0]]⟩, baseFn := some (), restore := false,
               exit := false, err := some Err.foreignUpdate, lastUpdate := 0, event := none,
               waits := [] } : LoopSt Unit Unit)).sent = [Err.foreignUpdate] :=
  (foreign_update_policy ⟨33333333, true, true⟩ (fun _ => ())
    { oldLut := some ⟨[[0]], [[0]], [[0]]⟩, baseFn := some (), restore := true, exit := false,
      err := none, lastUpdate := 0, event := none, waits := [] }
    ⟨some ⟨[[1]], [[0]], [[0]]⟩, 0, (), 0, false, some ⟨[[1]], [[0]], [[0]]⟩, 0, Wake.timer⟩ []
    ⟨[[0]], [[0]], [[0]]⟩ ⟨[[1]], [[0]], [[0]]⟩ rfl rfl rfl rfl).1 (by decide) rfl

theorem foreignCheck_preserves {Fn Ev : Type} (o : Opts) (deriveFn : LookupTable → Fn)
    (st : LoopSt Fn Ev) (newLut : LookupTable) :
    (foreignCheck o deriveFn st newLut).1.waits = st.waits ∧
    (foreignCheck o deriveFn st newLut).1.lastUpdate = st.lastUpdate := by
  cases holu : st.oldLut with
  | none => simp [foreignCheck, holu]
  | some old =>
    cases hEq : newLut.Equals old <;> cases hpol : o.exitOnForeignUpdate <;>
      simp [foreignCheck, holu, hEq, hpol]

/-- Claim C4: on every iteration that reaches the wait point, the computed wait
equals `max(suggestedSleep, minInterval - (time of this write - time of the
previous write), 0)`, and the write time is recorded as the new `lastUpdate`
for the next iteration. -/
theorem iteration_wait_eq_max {Fn Ev : Type} (o : Opts) (deriveFn : LookupTable → Fn)
    (st : LoopSt Fn Ev) (env : IterEnv Fn Ev) (newLut lut2 : LookupTable)
    (hread : env.readTop = some newLut)
    (hfc : (foreignCheck o deriveFn st newLut).2 = false)
    (hrb : env.readBottom = some lut2) :
    (iterBody o deriveFn st env).1.waits =
      st.waits ++ [max env.sleepOut (max (o.updateInterval - (env.now - st.lastUpdate)) 0)] ∧
    (iterBody o deriveFn st env).1.lastUpdate = env.now := by
  obtain ⟨rt, tt, fo, so, eo, rb, nw, wk⟩ := env
  simp only at hread hrb
  subst hread
  subst hrb
  have hw := foreignCheck_preserves o deriveFn st newLut
  have hmax : ∀ a b : ℤ,
      (if (if a < b then b else a) < 0 then 0 else (if a < b then b else a)) =
        max a (max b 0) := by
    intro a b
    split_ifs <;> omega
  cases wk <;>
    simp [iterBody, hfc, hw.1, hw.2, hmax]

/-- Witness for C4: first iteration, suggested sleep 5ns, write at now = 10ns,
interval 33333333ns: the wait is max(5, 33333333 - 10, 0) and lastUpdate
becomes 10. -/
theorem iteration_wait_eq_max_witness :
    (iterBody ⟨33333333, true, true⟩ (fun _ => ()) (initLoopSt ⟨33333333, true, true⟩)
        (⟨some ⟨[[0]], [[0]], [[0]]⟩, 0, (), 5, false, some ⟨[[0]], [[0]], [[0]]⟩, 10,
          Wake.timer⟩ : IterEnv Unit Unit)).1.waits =
      (initLoopSt ⟨33333333, true, true⟩ : LoopSt Unit Unit).waits ++
        [max 5 (max (33333333 - (10 - (initLoopSt ⟨33333333, true, true⟩ :
          LoopSt Unit Unit).lastUpdate)) 0)] ∧
    (iterBody ⟨33333333, true, true⟩ (fun _ => ()) (initLoopSt ⟨33333333, true, true⟩)
        (⟨some ⟨[[0]], [[0]], [[0]]⟩, 0, (), 5, false, some ⟨[[0]], [[0]], [[0]]⟩, 10,
          Wake.timer⟩ : IterEnv Unit Unit)).1.lastUpdate = 10 :=
  iteration_wait_eq_max ⟨33333333, true, true⟩ (fun _ => ()) (initLoopSt ⟨33333333, true, true⟩)
    ⟨some ⟨[[0]], [[0]], [[0]]⟩, 0, (), 5, false, some ⟨[[0]], [[0]], [[0]]⟩, 10, Wake.timer⟩
    ⟨[[0]], [[0]], [[0]]⟩ ⟨[[0]], [[0]], [[0]]⟩ rfl rfl rfl

/-- Claim C2 (code bug): a clean termination (the driver function returned
`exit = true`, no error occurred) closes the termination channel WITHOUT
sending any value: the post-loop code only sends when `err != nil`.  The claim
(and the doc comment of `animate.Animate`, "exactly one error (or nil) will be
written") says one success value is delivered before closure. -/
theorem clean_exit_sends_nothing :
    (animateRun ⟨33333333, true, true⟩ (fun _ => ()) true
      [⟨some ⟨[[0]], [[0]], [[0]]⟩, 0, (), 0, true, some ⟨[[0]], [[0]], [[0]]⟩, 0, Wake.timer⟩]
      : RunResult Unit Unit).terminated = true ∧
    (animateRun ⟨33333333, true, true⟩ (fun _ => ()) true
      [⟨some ⟨[[0]], [[0]], [[0]]⟩, 0, (), 0, true, some ⟨[[0]], [[0]], [[0]]⟩, 0, Wake.timer⟩]
      : RunResult Unit Unit).sent = [] ∧
    (animateRun ⟨33333333, true, true⟩ (fun _ => ()) true
      [⟨some ⟨[[0]], [[0]], [[0]]⟩, 0, (), 0, true, some ⟨[[0]], [[0]], [[0]]⟩, 0, Wake.timer⟩]
      : RunResult Unit Unit).closed = true :=
  ⟨rfl, rfl, rfl⟩

/-- Claim C3 counterexample: a snapshot read failure on the second iteration
terminates the loop with ReadFailure, yet the restore-on-exit write still
happens (the code clears the restore flag only on ForeignUpdate), contradicting
the claim that termination with any error performs no restoring write. -/
theorem read_failure_still_restores :
    (animateRun ⟨33333333, true, true⟩ (fun _ => ()) true
      [⟨some ⟨[[0]], [[0]], [[0]]⟩, 0, (), 0, false, some ⟨[[0]], [[0]], [[0]]⟩, 0, Wake.timer⟩,
       ⟨none, 1, (), 0, false, none, 1, Wake.timer⟩] : RunResult Unit Unit).terminated = true ∧
    (animateRun ⟨33333333, true, true⟩ (fun _ => ()) true
      [⟨some ⟨[[0]], [[0]], [[0]]⟩, 0, (), 0, false, some ⟨[[0]], [[0]], [[0]]⟩, 0, Wake.timer⟩,
       ⟨none, 1, (), 0, false, none, 1, Wake.timer⟩] : RunResult Unit Unit).sent = [Err.readFail] ∧
    (animateRun ⟨33333333, true, true⟩ (fun _ => ()) true
      [⟨some ⟨[[0]], [[0]], [[0]]⟩, 0, (), 0, false, some ⟨[[0]], [[0]], [[0]]⟩, 0, Wake.timer⟩,
       ⟨none, 1, (), 0, false, none, 1, Wake.timer⟩] : RunResult Unit Unit).restoreWrites =
      [some ()] :=
  ⟨rfl, rfl, rfl⟩

theorem iterBody_err_restore {Fn Ev : Type} (o : Opts) (deriveFn : LookupTable → Fn)
    (st : LoopSt Fn Ev) (env : IterEnv Fn Ev)
    (herr : st.err = none) (hres : st.restore = o.restoreOnExit) :
    (((iterBody o deriveFn st env).1.err = none ∧
        (iterBody o deriveFn st env).1.restore = o.restoreOnExit) ∨
      ((iterBody o deriveFn st env).1.err = some Err.readFail ∧
        (iterBody o deriveFn st env).1.restore = o.restoreOnExit) ∨
      ((iterBody o deriveFn st env).1.err = some Err.foreignUpdate ∧
        (iterBody o deriveFn st env).1.restore = false)) ∧
    ((iterBody o deriveFn st env).2 = false →
      (iterBody o deriveFn st env).1.err = none ∧
      (iterBody o deriveFn st env).1.restore = o.restoreOnExit) := by
  obtain ⟨rt, tt, fo, so, eo, rb, nw, wk⟩ := env
  cases rt with
  | none => simp [iterBody, herr, hres]
  | some nl =>
    cases holu : st.oldLut with
    | none =>
      cases rb <;> cases wk <;> simp [iterBody, foreignCheck, holu, herr, hres]
    | some old =>
      cases hEq : nl.Equals old with
      | true =>
        cases rb <;> cases wk <;> simp [iterBody, foreignCheck, holu, hEq, herr, hres]
      | false =>
        cases hpol : o.exitOnForeignUpdate with
        | true => simp [iterBody, foreignCheck, holu, hEq, hpol, herr, hres]
        | false =>
          cases rb <;> cases wk <;> simp [iterBody, foreignCheck, holu, hEq, hpol, herr, hres]

theorem runIters_err_restore {Fn Ev : Type} (o : Opts) (deriveFn : LookupTable → Fn) :
    ∀ (envs : List (IterEnv Fn Ev)) (st : LoopSt Fn Ev),
      st.err = none → st.restore = o.restoreOnExit →
      ((runIters o deriveFn st envs).1.err = none ∧
        (runIters o deriveFn st envs).1.restore = o.restoreOnExit) ∨
      ((runIters o deriveFn st envs).1.err = some Err.readFail ∧
        (runIters o deriveFn st envs).1.restore = o.restoreOnExit) ∨
      ((runIters o deriveFn st envs).1.err = some Err.foreignUpdate ∧
        (runIters o deriveFn st envs).1.restore = false) := by
  intro envs
  induction envs with
  | nil =>
    intro st herr hres
    left
    exact ⟨herr, hres⟩
  | cons env rest ih =>
    intro st herr hres
    by_cases hex : st.exit = true
    · have : runIters o deriveFn st (env :: rest) = (st, true) := by simp [runIters, hex]
      rw [this]
      left
      exact ⟨herr, hres⟩
    · have hexf : st.exit = false := by simpa using hex
      obtain ⟨hQ, hcont⟩ := iterBody_err_restore o deriveFn st env herr hres
      cases hbr : (iterBody o deriveFn st env).2 with
      | false =>
        rw [runIters_cons o deriveFn st env rest hexf hbr]
        exact ih _ (hcont hbr).1 (hcont hbr).2
      | true =>
        have : runIters o deriveFn st (env :: rest) = ((iterBody o deriveFn st env).1, true) := by
          simp [runIters, hexf, hbr]
        rw [this]
        exact hQ

/-- Claim C3 amended: when the loop terminates, the baseline is written once
more iff the restore-on-exit option is active and the error (if any) is not
ForeignUpdate; in particular ForeignUpdate and SetupFailure terminations
perform no restoring write, but a ReadFailure termination with restore-on-exit
active does perform it. -/
theorem restore_on_exit_policy {Fn Ev : Type} (o : Opts) (deriveFn : LookupTable → Fn)
    (envs : List (IterEnv Fn Ev))
    (hterm : (animateRun o deriveFn true envs).terminated = true) :
    ((o.restoreOnExit = true ∧
        (animateRun o deriveFn true envs).finalSt.err ≠ some Err.foreignUpdate) →
      (animateRun o deriveFn true envs).restoreWrites =
        [(animateRun o deriveFn true envs).finalSt.baseFn]) ∧
    ((o.restoreOnExit = false ∨
        (animateRun o deriveFn true envs).finalSt.err = some Err.foreignUpdate) →
      (animateRun o deriveFn true envs).restoreWrites = []) ∧
    (animateRun o deriveFn false envs : RunResult Fn Ev).restoreWrites = [] := by
  have hQ := runIters_err_restore o deriveFn envs (initLoopSt o) rfl rfl
  cases hbr : (runIters o deriveFn (initLoopSt o) envs).2 with
  | false =>
    exfalso
    rw [animateRun] at hterm
    simp only [if_true] at hterm
    rw [hbr] at hterm
    simp at hterm
  | true =>
    have hrun : animateRun o deriveFn true envs =
        finish (runIters o deriveFn (initLoopSt o) envs).1 := by
      rw [animateRun]
      simp only [if_true]
      rw [hbr]
      simp
    rw [hrun]
    refine ⟨?_, ?_, by simp [animateRun]⟩
    · rintro ⟨hr, hne⟩
      rcases hQ with ⟨he, hres⟩ | ⟨he, hres⟩ | ⟨he, hres⟩
      · simp [finish, hres, hr]
      · simp [finish, hres, hr]
      · exfalso
        exact hne (by simpa [finish] using he)
    · rintro (h | h)
      · rcases hQ with ⟨he, hres⟩ | ⟨he, hres⟩ | ⟨he, hres⟩ <;> simp [finish, hres, h]
      · rcases hQ with ⟨he, hres⟩ | ⟨he, hres⟩ | ⟨he, hres⟩
        · rw [finish] at h
          simp only at h
          rw [he] at h
          exact absurd h (by simp)
        · rw [finish] at h
          simp only at h
          rw [he] at h
          exact absurd h (by simp)
        · simp [finish, hres]

/-- Witness for C3's amended theorem: the two-iteration ReadFailure run (restore
option active, error ReadFailure ≠ ForeignUpdate) performs exactly the one
restoring write of the baseline. -/
theorem restore_on_exit_policy_witness :
    (animateRun ⟨33333333, true, true⟩ (fun _ => ()) true
      [⟨some ⟨[[2]], [[0]], [[0]]⟩, 0, (), 0, false, some ⟨[[2]], [[0]], [[0]]⟩, 0, Wake.timer⟩,
       ⟨none, 1, (), 0, false, none, 1, Wake.timer⟩] : RunResult Unit Unit).restoreWrites =
      [(animateRun ⟨33333333, true, true⟩ (fun _ => ()) true
        [⟨some ⟨[[2]], [[0]], [[0]]⟩, 0, (), 0, false, some ⟨[[2]], [[0]], [[0]]⟩, 0, Wake.timer⟩,
         ⟨none, 1, (), 0, false, none, 1, Wake.timer⟩] : RunResult Unit Unit).finalSt.baseFn] :=
  (restore_on_exit_policy ⟨33333333, true, true⟩ (fun _ => ())
    [⟨some ⟨[[2]], [[0]], [[0]]⟩, 0, (), 0, false, some ⟨[[2]], [[0]], [[0]]⟩, 0, Wake.timer⟩,
     ⟨none, 1, (), 0, false, none, 1, Wake.timer⟩] rfl).1 ⟨rfl, by decide⟩
